import Mathlib

/-!
Verification of the request execution and pagination engine of the
congressapi_client library (src/congressapi_client/congressapi_client.py),
via a shallow embedding in Lean 4.

Python JSON values (as produced by `resp.json()` / the xmltodict round-trip)
are modelled by the inductive type `Json`; Python `None` is `Json.null`,
numbers are rationals, dicts are association lists (keys unique in payloads
actually produced by `json.loads`, though the model does not require it).
-/

namespace CongressApi

/-- Model of a parsed JSON/Python value. `null` doubles as Python `None`. -/
inductive Json where
  | null : Json
  | bool : Bool → Json
  | num : ℚ → Json
  | str : String → Json
  | arr : List Json → Json
  | obj : List (String × Json) → Json

/-- `kvs.get(k)` on the underlying pair list: first binding of `k`, if any. -/
def getJ (kvs : List (String × Json)) (k : String) : Option Json :=
  kvs.lookup k

/-- Python `d.get(k)` on a dict value: `None` (here `Json.null`) when the key
is absent or the value is itself `null`, and the stored value otherwise.
Non-dict values give `null` (call sites in the source only apply it to
dicts). -/
def jget (d : Json) (k : String) : Json :=
  match d with
  | .obj kvs =>
    match getJ kvs k with
    | some v => v
    | none => .null
  | _ => .null

/-- `CongressAPIClient._extract_items`: normalize a Congress.gov collection
block.  Mirrors the branch order of the source: `None` first, then bare
list, then dict with `"item"` checked as list then dict, then `"items"`
checked as list then dict, everything else empty. -/
def extract_items (block : Json) : List Json :=
  match block with
  | .null => []
  | .arr xs => xs
  | .obj kvs =>
    match getJ kvs "item" with
    | some (.arr xs) => xs
    | some (.obj m) => [.obj m]
    | _ =>
      match getJ kvs "items" with
      | some (.arr xs) => xs
      | some (.obj m) => [.obj m]
      | _ => []
  | _ => []

/-- `True` when an optional value is a Python list or dict — the shapes
`_extract_items` accepts under a wrapper key. -/
def isCollection : Option Json → Bool
  | some (.arr _) => true
  | some (.obj _) => true
  | _ => false

/-- `CongressAPIClient._paged._unwrap_root`: if the parsed mapping has a
key `"root"` whose value is a dict, return that inner dict; otherwise
return the value unchanged.  (The source checks only membership of
`'root'`, not that it is the sole key.) -/
def unwrap_root (d : Json) : Json :=
  match d with
  | .obj kvs =>
    match getJ kvs "root" with
    | some (.obj inner) => .obj inner
    | _ => .obj kvs
  | _ => d

/-- `True` on values that are dicts. -/
def isObjJ : Json → Bool
  | .obj _ => true
  | _ => false

/-- The `"items"` fallback arm of `_extract_items` yields `[]` whenever the
`"items"` value is not a list or dict. -/
theorem items_arm_of_not_collection (kvs : List (String × Json))
    (h : isCollection (getJ kvs "items") = false) :
    (match getJ kvs "items" with
      | some (.arr xs) => xs
      | some (.obj m) => [.obj m]
      | _ => ([] : List Json)) = [] := by
  rcases hs : getJ kvs "items" with _ | js
  · rfl
  · rw [hs] at h
    cases js
    case arr => simp [isCollection] at h
    case obj => simp [isCollection] at h
    all_goals rfl

end CongressApi

namespace CongressApi

/-- C2: For every collection block: `None` gives `[]`; a bare list gives
itself; `{item: [...]}` gives the list; `{item: {...}}` gives a singleton
list of the dict; `{items: [...]}` gives the list; `{items: {...}}` gives a
singleton; any other shape (scalars, or a dict where neither `item` nor
`items` holds a list or dict) gives `[]` — and the function is total, so it
never raises. -/
theorem extract_items_shapes :
    (extract_items .null = []) ∧
    (∀ xs, extract_items (.arr xs) = xs) ∧
    (∀ xs, extract_items (.obj [("item", .arr xs)]) = xs) ∧
    (∀ m, extract_items (.obj [("item", .obj m)]) = [.obj m]) ∧
    (∀ xs, extract_items (.obj [("items", .arr xs)]) = xs) ∧
    (∀ m, extract_items (.obj [("items", .obj m)]) = [.obj m]) ∧
    (∀ b, extract_items (.bool b) = []) ∧
    (∀ q, extract_items (.num q) = []) ∧
    (∀ s, extract_items (.str s) = []) ∧
    (∀ kvs, isCollection (getJ kvs "item") = false →
      isCollection (getJ kvs "items") = false →
      extract_items (.obj kvs) = []) := by
  refine ⟨rfl, fun xs => rfl, fun xs => rfl, fun m => rfl, fun xs => rfl,
    fun m => rfl, fun b => rfl, fun q => rfl, fun s => rfl, ?_⟩
  intro kvs h1 h2
  simp only [extract_items]
  rcases hi : getJ kvs "item" with _ | ji
  · exact items_arm_of_not_collection kvs h2
  · rw [hi] at h1
    cases ji
    case arr => simp [isCollection] at h1
    case obj => simp [isCollection] at h1
    all_goals exact items_arm_of_not_collection kvs h2

/-- C2 witness: instantiation of the hypothesis-bearing clause on a
concrete dict whose `item` and `items` values are not collections. -/
theorem extract_items_shapes_witness :
    extract_items (.obj [("item", .num 3), ("items", .str "x")]) = [] :=
  extract_items_shapes.2.2.2.2.2.2.2.2.2
    [("item", .num 3), ("items", .str "x")] (by decide) (by decide)

/-- C10: In `_extract_items`, for a dict block the value under `"item"`
decides the result whenever it is a list or dict, regardless of what is
stored under `"items"`; `"items"` is consulted only when the `"item"`
value is neither a list nor a dict. -/
theorem extract_items_item_precedence :
    (∀ kvs xs, getJ kvs "item" = some (.arr xs) →
      extract_items (.obj kvs) = xs) ∧
    (∀ kvs m, getJ kvs "item" = some (.obj m) →
      extract_items (.obj kvs) = [.obj m]) ∧
    (∀ kvs, isCollection (getJ kvs "item") = false →
      (∀ xs, getJ kvs "items" = some (.arr xs) →
        extract_items (.obj kvs) = xs) ∧
      (∀ m, getJ kvs "items" = some (.obj m) →
        extract_items (.obj kvs) = [.obj m])) := by
  refine ⟨?_, ?_, ?_⟩
  · intro kvs xs h
    simp [extract_items, h]
  · intro kvs m h
    simp [extract_items, h]
  · intro kvs h
    constructor
    · intro xs hs
      simp only [extract_items]
      rcases hi : getJ kvs "item" with _ | ji
      · rw [hs]
      · rw [hi] at h
        cases ji
        case arr => simp [isCollection] at h
        case obj => simp [isCollection] at h
        all_goals rw [hs]
    · intro m hs
      simp only [extract_items]
      rcases hi : getJ kvs "item" with _ | ji
      · rw [hs]
      · rw [hi] at h
        cases ji
        case arr => simp [isCollection] at h
        case obj => simp [isCollection] at h
        all_goals rw [hs]

/-- C10 witness: a dict carrying both keys with collection values uses
`item` and ignores `items`; one with a scalar `item` uses `items`. -/
theorem extract_items_item_precedence_witness :
    extract_items (.obj [("item", .arr [.num 1]), ("items", .arr [.num 2])])
      = [.num 1] ∧
    extract_items (.obj [("item", .num 0), ("items", .arr [.num 2])])
      = [.num 2] :=
  ⟨extract_items_item_precedence.1
      [("item", .arr [.num 1]), ("items", .arr [.num 2])] [.num 1] rfl,
   (extract_items_item_precedence.2.2
      [("item", .num 0), ("items", .arr [.num 2])] (by decide)).1
      [.num 2] rfl⟩

/-- C7 counterexample: a mapping with two top-level keys, one of them
`root` with a dict value, is unwrapped by the code, whereas the claim
requires a mapping that is not exactly `{root: {...}}` to be left
unchanged. -/
theorem unwrap_root_counterexample :
    unwrap_root (.obj [("root", .obj []), ("extra", .num 1)]) = .obj [] ∧
    Json.obj [("root", .obj []), ("extra", .num 1)] ≠ .obj [] := by
  exact ⟨rfl, by simp⟩

/-- C7 (amended): `_unwrap_root` replaces the mapping by the value of its
`root` key exactly when a `root` key is present with a dict value — the
mapping need not have `root` as its only key; every other value (mappings
without such a binding, and non-mappings) is returned unchanged. -/
theorem unwrap_root_amended :
    (∀ kvs inner, getJ kvs "root" = some (.obj inner) →
      unwrap_root (.obj kvs) = .obj inner) ∧
    (∀ kvs, isCollection (getJ kvs "root") = false →
      unwrap_root (.obj kvs) = .obj kvs) ∧
    (∀ kvs xs, getJ kvs "root" = some (.arr xs) →
      unwrap_root (.obj kvs) = .obj kvs) ∧
    (∀ d, isObjJ d = false → unwrap_root d = d) := by
  refine ⟨?_, ?_, ?_, ?_⟩
  · intro kvs inner h
    simp [unwrap_root, h]
  · intro kvs h
    simp only [unwrap_root]
    rcases hr : getJ kvs "root" with _ | jr
    · rfl
    · rw [hr] at h
      cases jr
      case obj => simp [isCollection] at h
      all_goals rfl
  · intro kvs xs h
    simp [unwrap_root, h]
  · intro d h
    cases d <;> simp_all [unwrap_root, isObjJ]

/-- C7 witness: the positive and negative branches at concrete inputs. -/
theorem unwrap_root_amended_witness :
    unwrap_root (.obj [("root", .obj [("a", .num 1)]), ("b", .num 2)])
      = .obj [("a", .num 1)] ∧
    unwrap_root (.obj [("root", .num 7)]) = .obj [("root", .num 7)] ∧
    unwrap_root (.num 7) = .num 7 :=
  ⟨unwrap_root_amended.1 [("root", .obj [("a", .num 1)]), ("b", .num 2)]
      [("a", .num 1)] rfl,
   unwrap_root_amended.2.1 [("root", .num 7)] (by decide),
   unwrap_root_amended.2.2.2 (.num 7) (by decide)⟩

/-!
Backoff calculator: `CongressAPIClient._parse_retry_after`.

The header string is embedded by what the two parsers make of it:
`float(value)` succeeding with value `q` is `numeric q`; `float` failing
while `email.utils.parsedate_to_datetime` succeeds, the parsed date lying
`ts` seconds after the epoch in UTC, is `httpDate ts`; the empty string is
`empty`; both parsers failing is `unparseable`.  `now` is the current UTC
time in seconds after the epoch.
-/

/-- Parse outcome of a Retry-After header string. -/
inductive RetryAfterInput where
  | empty
  | numeric (q : ℚ)
  | httpDate (ts : ℚ)
  | unparseable

/-- `CongressAPIClient._parse_retry_after`: empty string gives `0`; a
numeric string gives its value unchanged; an HTTP-date gives the distance
to now floored at zero; anything else gives `0`. -/
def parse_retry_after (now : ℚ) : RetryAfterInput → ℚ
  | .empty => 0
  | .numeric q => q
  | .httpDate ts => max 0 (ts - now)
  | .unparseable => 0

/-- C5 counterexample: the numeric branch performs no flooring, so the
numeric string `"-5"` produces the negative value `-5`, contradicting the
claim that every string input yields a non-negative number of seconds. -/
theorem parse_retry_after_counterexample :
    parse_retry_after 0 (.numeric (-5)) = -5 ∧
    parse_retry_after 0 (.numeric (-5)) < 0 := by
  refine ⟨rfl, ?_⟩
  norm_num [parse_retry_after]

/-- C5 (amended): empty and unparseable inputs give exactly zero; an
HTTP-date gives the date-minus-now difference floored at zero, hence
non-negative; a plain numeric string gives its value unchanged, which is
non-negative exactly when the parsed number is. -/
theorem parse_retry_after_amended :
    (∀ now, parse_retry_after now .empty = 0) ∧
    (∀ now, parse_retry_after now .unparseable = 0) ∧
    (∀ now q, parse_retry_after now (.numeric q) = q) ∧
    (∀ now ts, parse_retry_after now (.httpDate ts) = max 0 (ts - now) ∧
      0 ≤ parse_retry_after now (.httpDate ts)) ∧
    (∀ now q, 0 ≤ q → 0 ≤ parse_retry_after now (.numeric q)) :=
  ⟨fun _ => rfl, fun _ => rfl, fun _ _ => rfl,
   fun _ _ => ⟨rfl, le_max_left 0 _⟩, fun _ _ h => h⟩

/-- C5 witness: the hypothesis-bearing clause at a concrete non-negative
numeric header. -/
theorem parse_retry_after_amended_witness :
    0 ≤ parse_retry_after 10 (.numeric 3) :=
  parse_retry_after_amended.2.2.2.2 10 3 (by norm_num)

/-!
Rate Gate configuration: `CongressAPIClient.__init__`.
-/

/-- Python `int()` on a rational: truncation toward zero. -/
def pyInt (q : ℚ) : ℤ := if 0 ≤ q then ⌊q⌋ else ⌈q⌉

/-- `effective_limit = max(1, int(req_per_hour * (1.0 - rph_margin)))` —
the token-bucket capacity (`hourly_capacity`). -/
def effective_limit (req_per_hour : ℤ) (rph_margin : ℚ) : ℤ :=
  max 1 (pyInt ((req_per_hour : ℚ) * (1 - rph_margin)))

/-- `hourly_refill_rate = float(effective_limit) / 3600.0` tokens/second. -/
def hourly_refill_rate (req_per_hour : ℤ) (rph_margin : ℚ) : ℚ :=
  (effective_limit req_per_hour rph_margin : ℚ) / 3600

/-- C6 counterexample: with `req_per_hour = 0` and margin `0` the floor of
`req_per_hour * (1 - margin)` is `0`, yet the constructor clamps the
capacity to `1` (`max(1, ...)`), and the resulting capacity and refill rate
are strictly positive — so the token bucket is not a no-op for this
configuration, contradicting both halves of the claim. -/
theorem effective_limit_counterexample :
    effective_limit 0 0 = 1 ∧
    pyInt (((0 : ℤ) : ℚ) * (1 - 0)) = 0 ∧
    0 < hourly_refill_rate 0 0 ∧
    0 < effective_limit 0 0 := by
  refine ⟨?_, ?_, ?_, ?_⟩ <;>
    norm_num [effective_limit, hourly_refill_rate, pyInt]

/-- C6 (amended): the capacity is `max(1, int(req_per_hour*(1-margin)))`,
which agrees with the claimed floor whenever that floor is at least one;
the refill rate is `capacity / 3600`; and for every configuration the
constructor accepts (`0 ≤ margin < 1`), capacity ≥ 1 and refill rate > 0,
so the token-bucket no-op guard in `_gate` can never fire. -/
theorem effective_limit_amended (rph : ℤ) (m : ℚ)
    (h0 : 0 ≤ m) (h1 : m < 1) :
    effective_limit rph m = max 1 (pyInt ((rph : ℚ) * (1 - m))) ∧
    1 ≤ effective_limit rph m ∧
    hourly_refill_rate rph m = (effective_limit rph m : ℚ) / 3600 ∧
    0 < hourly_refill_rate rph m ∧
    (1 ≤ pyInt ((rph : ℚ) * (1 - m)) →
      effective_limit rph m = pyInt ((rph : ℚ) * (1 - m))) := by
  refine ⟨rfl, le_max_left 1 _, rfl, ?_, fun h => max_eq_right h⟩
  have hc : (0 : ℤ) < effective_limit rph m :=
    lt_of_lt_of_le Int.zero_lt_one (le_max_left 1 _)
  have hc' : (0 : ℚ) < (effective_limit rph m : ℚ) := by exact_mod_cast hc
  exact div_pos hc' (by norm_num)

/-- C6 witness: the default configuration (5000 req/hour, 1% margin)
where the floor is positive and the capacity equals it. -/
theorem effective_limit_amended_witness :
    effective_limit 5000 (1/100) = pyInt (((5000 : ℤ) : ℚ) * (1 - 1/100)) :=
  (effective_limit_amended 5000 (1/100) (by norm_num) (by norm_num)).2.2.2.2
    (by norm_num [pyInt])

/-!
Rate Gate: `CongressAPIClient._gate`.

Time is a rational number of seconds on the monotonic clock.  Each gated
call is driven by three clock observations: `nowP` (the politeness-section
reading), `now` (the reading taken before the refill), and `wake` (the
reading after the exhaustion sleep; only consulted when the pre-sleep
refill leaves fewer than one token; a faithful run has
`wake ≥ now + sleep_minutes * 60`).  `time.sleep` in the politeness
section is modelled as exact, so the committed `last_call` is
`max nowP (last_call + min_interval)`.
-/

/-- Throttle configuration fixed by `CongressAPIClient.__init__`. -/
structure GateCfg where
  min_interval : ℚ
  hourly_capacity : ℤ
  hourly_refill_rate : ℚ
  sleep_minutes : ℤ

/-- The mutable gate state: `_last_call`, `_tokens`, `_last_refill`. -/
structure GateState where
  last_call : ℚ
  tokens : ℚ
  last_refill : ℚ

/-- Configuration as built by the constructor from `min_interval`,
`req_per_hour`, `rph_margin` and `sleep_minutes`. -/
def mk_cfg (min_interval : ℚ) (rph : ℤ) (m : ℚ) (sleep_minutes : ℤ) :
    GateCfg :=
  { min_interval := min_interval
    hourly_capacity := effective_limit rph m
    hourly_refill_rate := hourly_refill_rate rph m
    sleep_minutes := sleep_minutes }

/-- Initial state: full bucket, both clocks at construction time `t0`. -/
def init_state (cfg : GateCfg) (t0 : ℚ) : GateState :=
  { last_call := t0, tokens := (cfg.hourly_capacity : ℚ), last_refill := t0 }

/-- `CongressAPIClient._gate`: politeness interval, then the hourly token
bucket — guard clause, refill since `_last_refill` capped at capacity,
forced sleep with a second refill when below one token, then commit
`max(0, tokens - 1)` and the refill timestamp. -/
def gate (cfg : GateCfg) (st : GateState) (nowP now wake : ℚ) : GateState :=
  let lc := if 0 < cfg.min_interval
    then max nowP (st.last_call + cfg.min_interval)
    else st.last_call
  if cfg.hourly_refill_rate ≤ 0 ∨ cfg.hourly_capacity ≤ 0 then
    { st with last_call := lc }
  else
    let t1 := min ((cfg.hourly_capacity : ℚ))
      (st.tokens + (now - st.last_refill) * cfg.hourly_refill_rate)
    if t1 < 1 then
      let t2 := min ((cfg.hourly_capacity : ℚ))
        (st.tokens + (wake - st.last_refill) * cfg.hourly_refill_rate)
      { last_call := lc, tokens := max 0 (t2 - 1), last_refill := wake }
    else
      { last_call := lc, tokens := max 0 (t1 - 1), last_refill := now }

/-- The refilled token count a gate call consumes from: the capped refill
at `now`, or — when that is below one token — the capped refill at the
post-sleep reading `wake`. -/
def gate_refilled (cfg : GateCfg) (st : GateState) (now wake : ℚ) : ℚ :=
  let t1 := min ((cfg.hourly_capacity : ℚ))
    (st.tokens + (now - st.last_refill) * cfg.hourly_refill_rate)
  if t1 < 1 then
    min ((cfg.hourly_capacity : ℚ))
      (st.tokens + (wake - st.last_refill) * cfg.hourly_refill_rate)
  else t1

/-- A sequence of gated calls, each with its three clock observations. -/
def run_gate (cfg : GateCfg) : GateState → List (ℚ × ℚ × ℚ) → GateState
  | st, [] => st
  | st, (p, n, w) :: rest => run_gate cfg (gate cfg st p n w) rest

/-- When the bucket is active, the committed token count is the clamped
one-token consumption from the refilled amount. -/
theorem gate_tokens_eq (cfg : GateCfg) (st : GateState) (p n w : ℚ)
    (hg : ¬ (cfg.hourly_refill_rate ≤ 0 ∨ cfg.hourly_capacity ≤ 0)) :
    (gate cfg st p n w).tokens = max 0 (gate_refilled cfg st n w - 1) := by
  by_cases ht : min ((cfg.hourly_capacity : ℚ))
      (st.tokens + (n - st.last_refill) * cfg.hourly_refill_rate) < 1
  · simp [gate, gate_refilled, hg, ht]
  · simp [gate, gate_refilled, hg, ht]

/-- In the bucket's no-op branch the token count is untouched. -/
theorem gate_tokens_noop (cfg : GateCfg) (st : GateState) (p n w : ℚ)
    (hg : cfg.hourly_refill_rate ≤ 0 ∨ cfg.hourly_capacity ≤ 0) :
    (gate cfg st p n w).tokens = st.tokens := by
  simp [gate, hg]

/-- The refilled amount never exceeds the capacity. -/
theorem gate_refilled_le_cap (cfg : GateCfg) (st : GateState) (n w : ℚ) :
    gate_refilled cfg st n w ≤ (cfg.hourly_capacity : ℚ) := by
  simp only [gate_refilled]
  split_ifs <;> exact min_le_left _ _

/-- One gate call keeps the token count inside `[0, capacity]`. -/
theorem gate_tokens_mem (cfg : GateCfg) (st : GateState) (p n w : ℚ)
    (h0 : 0 ≤ st.tokens) (h1 : st.tokens ≤ (cfg.hourly_capacity : ℚ)) :
    0 ≤ (gate cfg st p n w).tokens ∧
    (gate cfg st p n w).tokens ≤ (cfg.hourly_capacity : ℚ) := by
  have hcap : (0 : ℚ) ≤ (cfg.hourly_capacity : ℚ) := le_trans h0 h1
  by_cases hg : cfg.hourly_refill_rate ≤ 0 ∨ cfg.hourly_capacity ≤ 0
  · rw [gate_tokens_noop cfg st p n w hg]
    exact ⟨h0, h1⟩
  · rw [gate_tokens_eq cfg st p n w hg]
    refine ⟨le_max_left 0 _, max_le hcap ?_⟩
    have := gate_refilled_le_cap cfg st n w
    linarith

/-- The interval invariant propagated along a whole run. -/
theorem run_gate_tokens_mem (cfg : GateCfg) :
    ∀ (calls : List (ℚ × ℚ × ℚ)) (st : GateState),
      0 ≤ st.tokens → st.tokens ≤ (cfg.hourly_capacity : ℚ) →
      0 ≤ (run_gate cfg st calls).tokens ∧
      (run_gate cfg st calls).tokens ≤ (cfg.hourly_capacity : ℚ)
  | [], _, h0, h1 => ⟨h0, h1⟩
  | (p, n, w) :: rest, st, h0, h1 => by
    have step := gate_tokens_mem cfg st p n w h0 h1
    exact run_gate_tokens_mem cfg rest (gate cfg st p n w) step.1 step.2

/-- C4 counterexample run: capacity 2, refill rate 1/1800 tokens/s,
politeness off, 15-minute recovery sleep — see `cfg_cx_matches_ctor` for
the constructor arguments realizing it (`req_per_hour = 2`, margin 0).
Three calls: at time 0 (consume, 2 → 1), at 450 (refill to 5/4, consume to
1/4), then again at 450 — the refill gives 1/4 < 1, the forced sleep wakes
at 1350 = 450 + 15·60 with only 3/4 of a token, and the commit clamps
`3/4 - 1` to zero. -/
def cfg_cx : GateCfg :=
  { min_interval := 0, hourly_capacity := 2, hourly_refill_rate := 1/1800
    sleep_minutes := 15 }

/-- The counterexample configuration is exactly what the constructor
builds from `min_interval = 0`, `req_per_hour = 2`, `rph_margin = 0`,
`sleep_minutes = 15`. -/
theorem cfg_cx_matches_ctor : cfg_cx = mk_cfg 0 2 0 15 := by
  simp only [cfg_cx, mk_cfg, GateCfg.mk.injEq]
  norm_num [effective_limit, hourly_refill_rate, pyInt]

/-- State after the first two calls of the counterexample run. -/
def st_cx2 : GateState :=
  run_gate cfg_cx (init_state cfg_cx 0) [(0, 0, 900), (450, 450, 1350)]

/-- State after the third call of the counterexample run. -/
def st_cx3 : GateState := gate cfg_cx st_cx2 450 450 1350

/-- Evaluation of the first two counterexample calls. -/
theorem st_cx2_eq :
    st_cx2 = { last_call := 0, tokens := 1/4, last_refill := 450 } := by
  simp only [st_cx2, run_gate]
  norm_num [cfg_cx, init_state, gate, min_def, max_def, GateState.mk.injEq]

/-- Evaluation of the third counterexample call. -/
theorem st_cx3_eq :
    st_cx3 = { last_call := 0, tokens := 0, last_refill := 1350 } := by
  rw [st_cx3, st_cx2_eq]
  norm_num [cfg_cx, gate, min_def, max_def, GateState.mk.injEq]

/-- C4 counterexample: on the third gated call the refilled amount is 3/4
of a token and the committed count is 0, so the call consumed 3/4 of a
token, not exactly one — the clamp `max(0, tokens - 1)` broke the claimed
"decreases only by consuming exactly one token per gated call". -/
theorem gate_counterexample :
    st_cx2.tokens = 1/4 ∧
    gate_refilled cfg_cx st_cx2 450 1350 = 3/4 ∧
    st_cx3.tokens = 0 ∧
    gate_refilled cfg_cx st_cx2 450 1350 - st_cx3.tokens ≠ 1 := by
  rw [st_cx2_eq, st_cx3_eq]
  norm_num [cfg_cx, gate_refilled, min_def]

/-- C4 (amended): the token count starts at capacity and after every
gated call stays in `[0, capacity]`; when the bucket is active each call
commits `max(0, refilled - 1)` — the elapsed-time-proportional refill
capped at capacity followed by a one-token consumption that is clamped at
zero, so the consumption is exactly one token whenever the refilled amount
is at least one, and less than one token otherwise. -/
theorem gate_tokens_amended :
    (∀ cfg t0, (init_state cfg t0).tokens = (cfg.hourly_capacity : ℚ)) ∧
    (∀ cfg t0 calls, 1 ≤ cfg.hourly_capacity →
      0 ≤ (run_gate cfg (init_state cfg t0) calls).tokens ∧
      (run_gate cfg (init_state cfg t0) calls).tokens
        ≤ (cfg.hourly_capacity : ℚ)) ∧
    (∀ cfg st p n w, ¬ (cfg.hourly_refill_rate ≤ 0 ∨ cfg.hourly_capacity ≤ 0) →
      (gate cfg st p n w).tokens = max 0 (gate_refilled cfg st n w - 1)) ∧
    (∀ cfg st p n w, ¬ (cfg.hourly_refill_rate ≤ 0 ∨ cfg.hourly_capacity ≤ 0) →
      1 ≤ gate_refilled cfg st n w →
      (gate cfg st p n w).tokens = gate_refilled cfg st n w - 1) := by
  refine ⟨fun cfg t0 => rfl, ?_, ?_, ?_⟩
  · intro cfg t0 calls hcap
    have hc : (0 : ℚ) ≤ (cfg.hourly_capacity : ℚ) := by
      exact_mod_cast le_trans zero_le_one hcap
    exact run_gate_tokens_mem cfg calls (init_state cfg t0) hc le_rfl
  · intro cfg st p n w hg
    exact gate_tokens_eq cfg st p n w hg
  · intro cfg st p n w hg hr
    rw [gate_tokens_eq cfg st p n w hg]
    exact max_eq_right (by linarith)

/-- C4 witness: the amended statement instantiated on the counterexample
configuration — the first two calls never clamp, and the third stays in
`[0, capacity]`. -/
theorem gate_tokens_amended_witness :
    0 ≤ (run_gate cfg_cx (init_state cfg_cx 0)
          [(0, 0, 900), (450, 450, 1350), (450, 450, 1350)]).tokens ∧
    (run_gate cfg_cx (init_state cfg_cx 0)
          [(0, 0, 900), (450, 450, 1350), (450, 450, 1350)]).tokens
      ≤ (cfg_cx.hourly_capacity : ℚ) :=
  gate_tokens_amended.2.1 cfg_cx 0
    [(0, 0, 900), (450, 450, 1350), (450, 450, 1350)] (by norm_num [cfg_cx])

/-!
Transport: `CongressAPIClient._request_with_backoff`.

What the outside world does on attempt `i` is given by a function
`fetch : ℕ → Outcome`: either the session returns a response (its status
code plus the parsed value of its Retry-After header) or it raises a
connection/timeout fault.  `requests.Response.raise_for_status` raises
`requests.HTTPError` exactly for status codes in `[400, 600)`; crucially,
`HTTPError` is a subclass of `RequestException`, so the `except` clause of
the loop catches it.  The result records what the loop does and how many
HTTP calls it performed.
-/

/-- What the HTTP session does on one attempt. -/
inductive Outcome where
  | resp (status : ℕ) (retry_after : ℚ)
  | connErr

/-- The exception held in `last_exc`. -/
inductive LastExc where
  | none
  | http (status : ℕ)
  | conn

/-- Overall outcome of `_request_with_backoff`: a returned response, a
raised `HTTPError`, or the generic exhaustion `RequestException`. -/
inductive ReqResult where
  | ok (status : ℕ)
  | httpError (status : ℕ)
  | exhaustedErr
deriving DecidableEq

/-- The retryable status set `(429, 500, 502, 503, 504)`. -/
def retryable (s : ℕ) : Bool :=
  s == 429 || s == 500 || s == 502 || s == 503 || s == 504

/-- The attempt loop of `_request_with_backoff`, by remaining attempts.
Returns the result together with the number of HTTP calls performed.
A 2xx returns the response.  A retryable status sleeps (Retry-After or
backoff), records an `HTTPError` and continues.  Any other status in
`[400, 600)` has `raise_for_status` raise an `HTTPError` that the
`except (ConnectionError, Timeout, RequestException)` clause catches —
recording it, sleeping backoff and continuing.  A non-2xx status below
400 escapes `raise_for_status` and is returned like a success.  On
exhaustion, the last `HTTPError` is raised if one was recorded, else the
generic `RequestException`. -/
def req_go (fetch : ℕ → Outcome) : ℕ → ℕ → LastExc → ReqResult × ℕ
  | _, 0, .http s => (.httpError s, 0)
  | _, 0, _ => (.exhaustedErr, 0)
  | attempt, remaining + 1, _ =>
    match fetch attempt with
    | .connErr =>
      let r := req_go fetch (attempt + 1) remaining .conn
      (r.1, r.2 + 1)
    | .resp s _ =>
      if 200 ≤ s ∧ s < 300 then (.ok s, 1)
      else if retryable s then
        let r := req_go fetch (attempt + 1) remaining (.http s)
        (r.1, r.2 + 1)
      else if 400 ≤ s ∧ s < 600 then
        let r := req_go fetch (attempt + 1) remaining (.http s)
        (r.1, r.2 + 1)
      else (.ok s, 1)

/-- `_request_with_backoff`: run the loop from attempt 0 with
`max_tries` attempts and no recorded exception. -/
def request_with_backoff (fetch : ℕ → Outcome) (max_tries : ℕ) :
    ReqResult × ℕ :=
  req_go fetch 0 max_tries .none

/-- A server that answers 404 on the first attempt and 200 afterwards. -/
def fetch_404_then_200 : ℕ → Outcome :=
  fun i => if i = 0 then .resp 404 0 else .resp 200 0

/-- C1 counterexample: with the default 8 attempts, a 404 on the first
attempt does not raise — the `HTTPError` from `raise_for_status` is caught
by the `except RequestException` clause, a second HTTP call is made, and
its 200 response is returned.  The claim requires an immediate raise with
exactly one HTTP call. -/
theorem transport_counterexample :
    request_with_backoff fetch_404_then_200 8 = (.ok 200, 2) := by decide

/-- One loop iteration on a non-retryable error response: record the
caught `HTTPError`, sleep backoff, and continue with one more call made. -/
theorem req_go_step_nonretryable (fetch : ℕ → Outcome) (a r : ℕ)
    (e : LastExc) (s : ℕ) (ra : ℚ) (hf : fetch a = .resp s ra)
    (h2 : ¬ (200 ≤ s ∧ s < 300)) (hr : retryable s = false)
    (h46 : 400 ≤ s ∧ s < 600) :
    req_go fetch a (r + 1) e =
      ((req_go fetch (a + 1) r (.http s)).1,
       (req_go fetch (a + 1) r (.http s)).2 + 1) := by
  simp [req_go, hf, h2, hr, h46]

/-- A constantly failing non-retryable server keeps being retried: the
loop records the `HTTPError` each time and continues. -/
theorem req_go_const_nonretryable (s : ℕ) (ra : ℚ)
    (h4 : 400 ≤ s) (h6 : s < 600) (hr : retryable s = false) :
    ∀ (r a : ℕ) (e : LastExc),
      req_go (fun _ => .resp s ra) a (r + 1) e = (.httpError s, r + 1)
  | 0, a, e => by
    have h2 : ¬ (200 ≤ s ∧ s < 300) := by omega
    rw [req_go_step_nonretryable (fun _ => .resp s ra) a 0 e s ra rfl h2 hr
      ⟨h4, h6⟩]
    simp [req_go]
  | r + 1, a, e => by
    have h2 : ¬ (200 ≤ s ∧ s < 300) := by omega
    rw [req_go_step_nonretryable (fun _ => .resp s ra) a (r + 1) e s ra rfl h2
      hr ⟨h4, h6⟩,
      req_go_const_nonretryable s ra h4 h6 hr r (a + 1) (.http s)]

/-- C1 (amended): a response whose status is neither 2xx nor in the
retryable set but lies in `[400, 600)` is NOT raised immediately: the
`HTTPError` produced by `raise_for_status` is caught like a connection
fault, the loop sleeps backoff and performs further attempts, and only
after the configured `max_tries` attempts is that `HTTPError` raised. -/
theorem transport_nonretryable_retries (s : ℕ) (ra : ℚ) (n : ℕ)
    (h4 : 400 ≤ s) (h6 : s < 600) (hr : retryable s = false) (hn : 1 ≤ n) :
    request_with_backoff (fun _ => .resp s ra) n = (.httpError s, n) := by
  obtain ⟨m, rfl⟩ : ∃ m, n = m + 1 := ⟨n - 1, by omega⟩
  exact req_go_const_nonretryable s ra h4 h6 hr m 0 .none

/-- C1 witness: three attempts of constant 403 all get consumed before the
`HTTPError` surfaces. -/
theorem transport_nonretryable_retries_witness :
    request_with_backoff (fun _ => .resp 403 0) 3 = (.httpError 403, 3) :=
  transport_nonretryable_retries 403 0 3 (by norm_num) (by norm_num)
    (by decide) (by norm_num)

/-!
Pager: `CongressAPIClient._paged`.

`fetch url` is the parsed payload (`_parse_payload`) the provider returns
for a GET of `url`; `wk` is `_url_with_key` as a function on URL strings.
The walk is modelled with explicit fuel: `none` means the fuel bound was
exceeded, so a `some` result is a terminating walk.  The result carries
the yielded items and the list of URLs actually fetched (in order).  The
`seen` set holds, as in the source, the raw `next` values — `wk` is
applied after the membership test.  `next` values that are not strings
are outside the modelled wire format (the source would crash in
`urlparse` on them). -/

/-- Python truthiness on parsed payload values. -/
def falsy : Json → Bool
  | .null => true
  | .bool b => !b
  | .num q => decide (q = 0)
  | .str s => s.isEmpty
  | .arr xs => xs.isEmpty
  | .obj kvs => kvs.isEmpty

/-- Read the follow-up URL of a page: `data.get("pagination")`, stop on a
falsy or non-dict pagination block, read `"next"`, and treat a missing,
null or empty value as end-of-stream (the `while next_url:` test). -/
def page_next (d : Json) : Option String :=
  let pg := jget d "pagination"
  if falsy pg then none
  else
    match pg with
    | .obj kvs =>
      match getJ kvs "next" with
      | some (.str s) => if s.isEmpty then none else some s
      | _ => none
    | _ => none

/-- The `while next_url:` loop of `_paged`: break on a repeated raw next
URL, otherwise mark it seen, authenticate it with `wk`, fetch, unwrap the
root, yield the extracted items and follow the new next link. -/
def paged_loop (fetch : String → Json) (wk : String → String) (dk : String) :
    ℕ → Finset String → Option String → Option (List Json × List String)
  | _, _, none => some ([], [])
  | 0, _, some _ => none
  | fuel + 1, seen, some url =>
    if url ∈ seen then some ([], [])
    else
      let d := unwrap_root (fetch (wk url))
      match paged_loop fetch wk dk fuel (insert url seen) (page_next d) with
      | none => none
      | some (rest, fs) =>
        some (extract_items (jget d dk) ++ rest, wk url :: fs)

/-- `_paged` from the first page's parsed payload onward: unwrap, yield
the first page's items, then follow `pagination.next` with an empty seen
set. -/
def paged (fetch : String → Json) (wk : String → String) (dk : String)
    (firstData : Json) (fuel : ℕ) : Option (List Json × List String) :=
  let d := unwrap_root firstData
  match paged_loop fetch wk dk fuel ∅ (page_next d) with
  | none => none
  | some (rest, fs) => some (extract_items (jget d dk) ++ rest, fs)

/-- Hitting a next URL that is already in the seen set breaks the loop at
once: nothing more is yielded and nothing more is fetched. -/
theorem paged_loop_break (fetch : String → Json) (wk : String → String)
    (dk : String) (fuel : ℕ) (seen : Finset String) (url : String)
    (h : url ∈ seen) :
    paged_loop fetch wk dk (fuel + 1) seen (some url) = some ([], []) := by
  simp [paged_loop, h]

/-- A page whose next link repeats an already-visited URL ends the walk
after its own items, with only that page fetched. -/
theorem paged_loop_cycle_stop (fetch : String → Json) (wk : String → String)
    (dk : String) (fuel : ℕ) (seen : Finset String) (url v : String)
    (hnot : url ∉ seen)
    (hnext : page_next (unwrap_root (fetch (wk url))) = some v)
    (hmem : v ∈ insert url seen) :
    paged_loop fetch wk dk (fuel + 1 + 1) seen (some url) =
      some (extract_items (jget (unwrap_root (fetch (wk url))) dk),
        [wk url]) := by
  simp only [paged_loop]
  rw [if_neg hnot, hnext,
    paged_loop_break fetch wk dk fuel (insert url seen) v hmem]
  simp

/-- With fuel one more than the number of not-yet-seen candidate URLs, the
walk always terminates (never runs out of fuel), provided every next link
the provider emits stays inside the candidate set `U`. -/
theorem paged_loop_terminates (fetch : String → Json) (wk : String → String)
    (dk : String) (U : Finset String)
    (hcl : ∀ v w, page_next (unwrap_root (fetch (wk v))) = some w → w ∈ U) :
    ∀ (n : ℕ) (seen : Finset String) (url : String), url ∈ U →
      (U \ seen).card ≤ n →
      paged_loop fetch wk dk (n + 1) seen (some url) ≠ none := by
  intro n
  induction n with
  | zero =>
    intro seen url hu hc
    have hsub : U \ seen = ∅ := Finset.card_eq_zero.mp (Nat.le_zero.mp hc)
    have hin : url ∈ seen := by
      by_contra hns
      have hmem : url ∈ U \ seen := Finset.mem_sdiff.mpr ⟨hu, hns⟩
      simp [hsub] at hmem
    simp [paged_loop, hin]
  | succ m ih =>
    intro seen url hu hc
    by_cases hs : url ∈ seen
    · simp [paged_loop, hs]
    · simp only [paged_loop]
      rw [if_neg hs]
      rcases hnext : page_next (unwrap_root (fetch (wk url))) with _ | v
      · simp [paged_loop]
      · have hv : v ∈ U := hcl url v hnext
        have hcard : (U \ insert url seen).card ≤ m := by
          have h1 : U \ insert url seen = (U \ seen).erase url := by
            ext x
            simp only [Finset.mem_sdiff, Finset.mem_insert, Finset.mem_erase]
            tauto
          have h2 : url ∈ U \ seen := Finset.mem_sdiff.mpr ⟨hu, hs⟩
          have h3 := Finset.card_erase_of_mem h2
          have h4 : 1 ≤ (U \ seen).card := Finset.card_pos.mpr ⟨url, h2⟩
          rw [h1]
          omega
        have hinner := ih (insert url seen) v hv hcard
        rcases hres : paged_loop fetch wk dk (m + 1) (insert url seen)
            (some v) with _ | pr
        · exact absurd hres hinner
        · obtain ⟨rest, fs⟩ := pr
          simp [hres]

/-- C3: if a page's `next` URL was already visited in this walk, the
stream ends after the items already produced — the cycling page's items
included — without an error and without fetching that URL again (the
fetched-URL trace of the remaining loop is just the current page); and a
walk whose next links all stay inside a finite URL set `U` terminates
within `|U \ seen| + 1` further pages. -/
theorem paged_cycle_guard :
    (∀ fetch wk dk fuel (seen : Finset String) url, url ∈ seen →
      paged_loop fetch wk dk (fuel + 1) seen (some url) = some ([], [])) ∧
    (∀ fetch wk dk fuel (seen : Finset String) url v, url ∉ seen →
      page_next (unwrap_root (fetch (wk url))) = some v →
      v ∈ insert url seen →
      paged_loop fetch wk dk (fuel + 1 + 1) seen (some url) =
        some (extract_items (jget (unwrap_root (fetch (wk url))) dk),
          [wk url])) ∧
    (∀ fetch wk dk (U seen : Finset String) url, url ∈ U →
      (∀ v w, page_next (unwrap_root (fetch (wk v))) = some w → w ∈ U) →
      paged_loop fetch wk dk ((U \ seen).card + 1) seen (some url) ≠ none) :=
  ⟨fun fetch wk dk fuel seen url h =>
      paged_loop_break fetch wk dk fuel seen url h,
   fun fetch wk dk fuel seen url v hnot hnext hmem =>
      paged_loop_cycle_stop fetch wk dk fuel seen url v hnot hnext hmem,
   fun fetch wk dk U seen url hu hcl =>
      paged_loop_terminates fetch wk dk U hcl ((U \ seen).card) seen url hu
        le_rfl⟩

/-- A provider whose every page lists one item and advertises `"u"` as
the next page — an immediate pagination cycle. -/
def fetch_cycle : String → Json := fun _ =>
  .obj [("k", .obj [("item", .arr [.num 1])]),
        ("pagination", .obj [("next", .str "u")])]

/-- C3 witness: on the cycling provider the walk starting at `"u"` yields
the page's single item, fetches only `"u"`, and terminates within the
fuel bound computed from the singleton URL universe. -/
theorem paged_cycle_guard_witness :
    paged_loop fetch_cycle id "k" 2 ∅ (some "u") = some ([.num 1], ["u"]) ∧
    paged_loop fetch_cycle id "k" ((({"u"} : Finset String) \ ∅).card + 1)
      ∅ (some "u") ≠ none := by
  constructor
  · exact (paged_cycle_guard.2.1 fetch_cycle id "k" 0 ∅ "u" "u"
      (by simp) (by decide) (by simp)).trans rfl
  · refine paged_cycle_guard.2.2 fetch_cycle id "k" {"u"} ∅ "u" (by simp) ?_
    intro v w h
    have e : page_next (unwrap_root (fetch_cycle (id v))) = some "u" := rfl
    rw [e] at h
    obtain rfl : "u" = w := Option.some.inj h
    simp

/-!
`CongressAPIClient._url_with_key`.

A URL is carried in `urlparse`'s six components; the query component is
carried in parsed form (the pair list `parse_qsl` produces with
`keep_blank_values=True`), eliding the percent-encoding round-trip of
`parse_qsl`/`urlencode`, which on the wellformed fragment are mutually
inverse.  `dict_of_pairs` is Python `dict(pairs)`: one entry per key, at
the position of the key's first occurrence, holding its last value. -/

/-- The six components of `urlparse`. -/
structure Url where
  scheme : String
  netloc : String
  path : String
  params : String
  query : List (String × String)
  fragment : String
deriving DecidableEq

/-- The API host compared against `u.netloc`. -/
def api_host : String := "api.congress.gov"

/-- Python `dict(pairs)` as an ordered association list. -/
def dict_of_pairs : List (String × String) → List (String × String)
  | [] => []
  | (k, v) :: rest =>
    let tail := dict_of_pairs rest
    match tail.lookup k with
    | some v' => (k, v') :: tail.filter (fun p => p.1 != k)
    | none => (k, v) :: tail

/-- `if "api_key" not in q: q["api_key"] = key` on the parsed query. -/
def add_key (key : String) (q : List (String × String)) :
    List (String × String) :=
  if q.any (fun p => p.1 == "api_key") then q else q ++ [("api_key", key)]

/-- `CongressAPIClient._url_with_key`: URLs on a different netloc pass
through untouched; on the API host the query is collapsed to a dict and
an `api_key` parameter is added if absent. -/
def url_with_key (key : String) (u : Url) : Url :=
  if u.netloc ≠ api_host then u
  else { u with query := add_key key (dict_of_pairs u.query) }

/-- `lookup` misses exactly the keys outside the list. -/
theorem lookup_eq_none_iff (k : String) (l : List (String × String)) :
    l.lookup k = none ↔ k ∉ l.map Prod.fst := by
  induction l with
  | nil => simp [List.lookup]
  | cons p t ih =>
    obtain ⟨a, b⟩ := p
    by_cases hk : k = a
    · subst hk
      simp [List.lookup]
    · have hba : (k == a) = false := by simp [hk]
      simp [List.lookup, hba, hk, ih]

/-- `dict_of_pairs` produces pairwise-distinct keys. -/
theorem dict_of_pairs_keys_nodup :
    ∀ l : List (String × String), ((dict_of_pairs l).map Prod.fst).Nodup
  | [] => List.nodup_nil
  | (k, v) :: rest => by
    have ih := dict_of_pairs_keys_nodup rest
    simp only [dict_of_pairs]
    rcases hl : (dict_of_pairs rest).lookup k with _ | v'
    · have hk : k ∉ (dict_of_pairs rest).map Prod.fst :=
        (lookup_eq_none_iff k (dict_of_pairs rest)).mp hl
      simp [List.nodup_cons, hk, ih]
    · have h1 : (((dict_of_pairs rest).filter
          (fun p => p.1 != k)).map Prod.fst).Nodup :=
        List.Nodup.sublist
          (List.Sublist.map Prod.fst (List.filter_sublist _)) ih
      have h2 : k ∉ ((dict_of_pairs rest).filter
          (fun p => p.1 != k)).map Prod.fst := by
        intro hm
        obtain ⟨p, hp, he⟩ := List.mem_map.mp hm
        have hppk := List.of_mem_filter hp
        simp [he] at hppk
      simp [List.nodup_cons, h1, h2]

/-- A key-distinct pair list is a fixpoint of `dict_of_pairs`. -/
theorem dict_of_pairs_fixpoint :
    ∀ l : List (String × String), (l.map Prod.fst).Nodup →
      dict_of_pairs l = l
  | [], _ => rfl
  | (k, v) :: rest, h => by
    simp only [List.map_cons, List.nodup_cons] at h
    have ih := dict_of_pairs_fixpoint rest h.2
    have hl : rest.lookup k = none := (lookup_eq_none_iff k rest).mpr h.1
    simp [dict_of_pairs, ih, hl]

/-- `add_key` on a dict-collapsed query keeps keys distinct. -/
theorem add_key_nodup (key : String) (q0 : List (String × String)) :
    ((add_key key (dict_of_pairs q0)).map Prod.fst).Nodup := by
  unfold add_key
  split_ifs with h
  · exact dict_of_pairs_keys_nodup q0
  · have hq := dict_of_pairs_keys_nodup q0
    have hnk : "api_key" ∉ (dict_of_pairs q0).map Prod.fst := by
      intro hm
      obtain ⟨p, hp, he⟩ := List.mem_map.mp hm
      exact absurd (List.any_eq_true.mpr ⟨p, hp, by simp [he]⟩) h
    rw [List.map_append]
    refine List.Nodup.append hq (by simp) ?_
    intro x hx hy
    simp only [List.map_cons, List.map_nil, List.mem_singleton] at hy
    subst hy
    exact hnk hx

/-- After `add_key` the `api_key` parameter is present. -/
theorem add_key_mem (key : String) (q : List (String × String)) :
    "api_key" ∈ (add_key key q).map Prod.fst := by
  unfold add_key
  split_ifs with h
  · obtain ⟨p, hp, he⟩ := List.any_eq_true.mp h
    exact List.mem_map.mpr ⟨p, hp, by simpa using he⟩
  · simp

/-- `add_key` leaves a query already carrying `api_key` unchanged. -/
theorem add_key_already (key : String) (q : List (String × String))
    (h : "api_key" ∈ q.map Prod.fst) : add_key key q = q := by
  unfold add_key
  rw [if_pos]
  obtain ⟨p, hp, he⟩ := List.mem_map.mp h
  exact List.any_eq_true.mpr ⟨p, hp, by simp [he]⟩

/-- C8: `_url_with_key` passes through unmodified every URL whose netloc
is not the API host; on the API host the result carries exactly one
`api_key` parameter (none is duplicated, collapsed duplicates included);
and the function is idempotent — a second application changes nothing. -/
theorem url_with_key_spec :
    (∀ key (u : Url), u.netloc ≠ api_host → url_with_key key u = u) ∧
    (∀ key (u : Url), u.netloc = api_host →
      (url_with_key key u).query.countP (fun p => p.1 == "api_key") = 1) ∧
    (∀ key (u : Url),
      url_with_key key (url_with_key key u) = url_with_key key u) := by
  have hcount : ∀ (k : String) (l : List (String × String)),
      (l.map Prod.fst).Nodup → k ∈ l.map Prod.fst →
      l.countP (fun p => p.1 == k) = 1 := by
    intro k l
    induction l with
    | nil => intro _ hm; simp at hm
    | cons p t ih =>
      intro h hm
      obtain ⟨a, b⟩ := p
      simp only [List.map_cons, List.nodup_cons] at h
      rw [List.countP_cons]
      by_cases hk : a = k
      · subst hk
        have hz : t.countP (fun p => p.1 == a) = 0 := by
          rw [List.countP_eq_zero]
          intro p hp
          simp only [beq_iff_eq]
          intro he
          exact h.1 (List.mem_map.mpr ⟨p, hp, he⟩)
        simp [hz]
      · simp only [List.map_cons, List.mem_cons] at hm
        rcases hm with he | hm
        · exact absurd he.symm hk
        · simp [ih h.2 hm, hk]
  refine ⟨?_, ?_, ?_⟩
  · intro key u hn
    unfold url_with_key
    rw [if_pos hn]
  · intro key u hn
    unfold url_with_key
    rw [if_neg (by simp [hn])]
    exact hcount "api_key" _ (add_key_nodup key u.query) (add_key_mem key _)
  · intro key u
    by_cases hn : u.netloc = api_host
    · obtain ⟨sc, nl, pa, pr, q0, fr⟩ := u
      simp only at hn
      subst hn
      unfold url_with_key
      rw [if_neg (by simp [api_host]), if_neg (by simp [api_host])]
      simp only []
      rw [dict_of_pairs_fixpoint _ (add_key_nodup key q0),
        add_key_already key _ (add_key_mem key _)]
    · have h1 : url_with_key key u = u := by
        unfold url_with_key
        rw [if_pos hn]
      rw [h1, h1]

/-- C8 witness: a same-host URL with a stray duplicate parameter gets a
single `api_key`, the result is a fixpoint, and a cross-host URL is
untouched. -/
theorem url_with_key_spec_witness :
    (url_with_key "K"
      { scheme := "https", netloc := "api.congress.gov"
        path := "/v3/hearing/118", params := ""
        query := [("page", "1"), ("page", "2")], fragment := "" }).query.countP
      (fun p => p.1 == "api_key") = 1 ∧
    url_with_key "K"
      { scheme := "https", netloc := "www.congress.gov", path := "/doc.pdf"
        params := "", query := [], fragment := "" } =
      { scheme := "https", netloc := "www.congress.gov", path := "/doc.pdf"
        params := "", query := [], fragment := "" } :=
  ⟨url_with_key_spec.2.1 "K" _ rfl, url_with_key_spec.1 "K" _ (by decide)⟩

/-!
Entity Streamer: the hydrated path of `CongressAPIClient.iter_entities`.

For one raw list item the detail fetch `_hydrate` either returns a detail
object, returns `None` because required key fields are missing, or raises
a fault of the caught `requests.RequestException` family (`HTTPError`
included).  The predicate `wh`, when present, is applied to the dict
projection of the detail (its `raw` payload when available); the
projection is folded into the predicate.  The result is the list of
yielded details plus whether the stream re-raised a fault. -/

/-- Outcome of the per-item detail fetch. -/
inductive HydrateResult (δ : Type) where
  | ok (d : δ)
  | noKey
  | fault
deriving DecidableEq

/-- The hydrated streaming loop of `iter_entities`: skip items without
key fields, skip-or-raise on transport faults according to
`continueOnError`, filter by the predicate, and yield in order. -/
def stream_hydrated {α δ : Type} (hyd : α → HydrateResult δ)
    (continueOnError : Bool) (wh : Option (δ → Bool)) :
    List α → List δ × Bool
  | [] => ([], false)
  | it :: rest =>
    match hyd it with
    | .noKey => stream_hydrated hyd continueOnError wh rest
    | .fault =>
      if continueOnError then stream_hydrated hyd continueOnError wh rest
      else ([], true)
    | .ok d =>
      let r := stream_hydrated hyd continueOnError wh rest
      match wh with
      | none => (d :: r.1, r.2)
      | some p => if p d then (d :: r.1, r.2) else r

/-- C9: with `continue_on_error = true` every faulting item is skipped and
the stream yields exactly the resolved details of the non-faulting,
key-complete items in order, never raising; with
`continue_on_error = false` the first fault stops the stream after the
details resolved before it, and the fault is propagated; an item whose
detail fetch returns no result is skipped silently in both modes. -/
theorem stream_hydrated_policy :
    (∀ (α δ : Type) (hyd : α → HydrateResult δ) (items : List α),
      stream_hydrated hyd true none items =
        (items.filterMap (fun it =>
          match hyd it with | .ok d => some d | _ => none), false)) ∧
    (∀ (α δ : Type) (hyd : α → HydrateResult δ) (pre : List α) (it : α)
      (post : List α),
      (∀ j, j ∈ pre → hyd j ≠ .fault) → hyd it = .fault →
      stream_hydrated hyd false none (pre ++ it :: post) =
        (pre.filterMap (fun j =>
          match hyd j with | .ok d => some d | _ => none), true)) ∧
    (∀ (α δ : Type) (hyd : α → HydrateResult δ) (c : Bool)
      (wh : Option (δ → Bool)) (it : α) (rest : List α),
      hyd it = .noKey →
      stream_hydrated hyd c wh (it :: rest) =
        stream_hydrated hyd c wh rest) := by
  refine ⟨?_, ?_, ?_⟩
  · intro α δ hyd items
    induction items with
    | nil => rfl
    | cons it rest ih =>
      cases hh : hyd it <;>
        simp [stream_hydrated, List.filterMap_cons, hh, ih]
  · intro α δ hyd pre it post hpre hit
    induction pre with
    | nil => simp [stream_hydrated, hit]
    | cons j t ih =>
      have hj : hyd j ≠ .fault := hpre j (List.mem_cons_self j t)
      have ihh := ih fun x hx => hpre x (List.mem_cons_of_mem j hx)
      cases hh : hyd j
      case fault => exact absurd hh hj
      case noKey => simp [stream_hydrated, List.filterMap_cons, hh, ihh]
      case ok d => simp [stream_hydrated, List.filterMap_cons, hh, ihh]
  · intro α δ hyd c wh it rest hk
    simp [stream_hydrated, hk]

/-- A detail fetcher over three raw items that faults on the middle one. -/
def hyd3 : ℕ → HydrateResult ℕ :=
  fun n => if n = 1 then .fault else if n = 0 then .ok 10 else .ok 12

/-- C9 witness: the abort-and-propagate clause on three items with one
fault — the stream yields the detail resolved before the fault and
re-raises. -/
theorem stream_hydrated_policy_witness :
    stream_hydrated hyd3 false none [0, 1, 2] = ([10], true) := by
  have h := stream_hydrated_policy.2.1 ℕ ℕ hyd3 [0] 1 [2]
    (by decide) (by decide)
  exact h.trans rfl

end CongressApi
